import Mathlib

/-!
Verification of the file-mover service (`file_mover.py`).

The Python code is shallowly embedded: each method of `FileMoverService`
becomes a Lean function over explicit data (strings as `String`/`List Char`,
the filesystem as lists of paths, the clock as an injected `today` string,
move outcomes as an injected oracle).  All definitions are executable so
that concrete witnesses evaluate by `decide`.
-/

namespace FileMover

/-! ## Python string primitives

Models of the exact Python string operations the service uses:
`str.strip`, `str.lower`, substring membership (`in`), `str.split(sep)`,
`os.path.splitext`, and `pathlib` stem/suffix. -/

/-- Whitespace stripped by Python `str.strip()` (ASCII subset). -/
def pyIsSpace (c : Char) : Bool :=
  c == ' ' || c == '\t' || c == '\n' || c == '\r' || c == '\x0b' || c == '\x0c'

/-- Python `str.strip()`. -/
def pyStrip (s : String) : String :=
  ⟨((s.data.dropWhile pyIsSpace).reverse.dropWhile pyIsSpace).reverse⟩

/-- Python `str.lower()` (ASCII letters, as used by the service). -/
def pyLower (s : String) : String :=
  ⟨s.data.map Char.toLower⟩

/-- Does `l` start with `p`?  (Python `str.startswith`, and the building
block of substring search.) -/
def pyStartsWith : List Char → List Char → Bool
  | _, [] => true
  | [], _ :: _ => false
  | c :: cs, p :: ps => c == p && pyStartsWith cs ps

/-- Python substring membership: `sub in l`. -/
def pyContainsSub : List Char → List Char → Bool
  | l, sub =>
    pyStartsWith l sub ||
      match l with
      | [] => false
      | _ :: cs => pyContainsSub cs sub

/-- Split `l` at the first occurrence of `sep`: returns the part before the
occurrence and the part after it, or `none` if `sep` does not occur. -/
def breakOnSub (sep : List Char) : List Char → Option (List Char × List Char)
  | [] => none
  | c :: cs =>
    if pyStartsWith (c :: cs) sep then some ([], (c :: cs).drop sep.length)
    else
      match breakOnSub sep cs with
      | some (pre, post) => some (c :: pre, post)
      | none => none

/-- Fuelled worker for Python `str.split(sep)` (non-empty `sep`).  The fuel
`l.length + 1` always suffices (each found occurrence consumes at least one
character), so the fuel never runs out; it only makes the recursion
structural so terms reduce in the kernel. -/
def pySplitCore (sep : List Char) : Nat → List Char → List (List Char)
  | 0, l => [l]
  | fuel + 1, l =>
    match breakOnSub sep l with
    | none => [l]
    | some (pre, post) => pre :: pySplitCore sep fuel post

/-- Python `s.split(sep)` for a non-empty separator. -/
def pySplit (sep s : String) : List String :=
  match sep.data with
  | [] => [s]
  | c :: cs => (pySplitCore (c :: cs) (s.data.length + 1) s.data).map String.mk

/-- The `" - "` delimiter used to split filename stems. -/
def sepChars : List Char := [' ', '-', ' ']

/-- A segment string through which the split cannot cut: no occurrence of
`" - "` starts strictly inside `xs` when the delimiter follows it. -/
def cleanSegment (xs : List Char) : Prop :=
  ∀ j < xs.length, pyStartsWith ((xs ++ sepChars).drop j) sepChars = false

instance (xs : List Char) : Decidable (cleanSegment xs) :=
  Nat.decidableBallLT xs.length _

/-- Index (from the start) of the last `.` in `l`, if any. -/
def rfindDot : List Char → Option Nat
  | [] => none
  | c :: cs =>
    match rfindDot cs with
    | some i => some (i + 1)
    | none => if c == '.' then some 0 else none

/-- Python `os.path.splitext` for a bare file name (no directory
separators): split at the last dot, unless every character before that dot
is itself a dot (then there is no extension). -/
def pySplitext (p : String) : String × String :=
  match rfindDot p.data with
  | none => (p, "")
  | some i =>
    if (p.data.take i).any (fun c => c != '.') then
      (⟨p.data.take i⟩, ⟨p.data.drop i⟩)
    else (p, "")

/-- Suffix of a file name in the sense of `pathlib.PurePath.suffix`:
non-empty only when the last dot is neither the first nor the last
character. -/
def pathSuffix (name : String) : String :=
  match rfindDot name.data with
  | none => ""
  | some i =>
    if 0 < i ∧ i < name.data.length - 1 then ⟨name.data.drop i⟩ else ""

/-- Stem of a file name in the sense of `pathlib.PurePath.stem`. -/
def pathStem (name : String) : String :=
  match rfindDot name.data with
  | none => name
  | some i =>
    if 0 < i ∧ i < name.data.length - 1 then ⟨name.data.take i⟩ else name

/-- Decimal digit characters of `n`, most significant first (the string
`Nat.repr` produces). -/
def decChars (n : Nat) : List Char :=
  if n = 0 then ['0'] else ((Nat.digits 10 n).map Nat.digitChar).reverse

/-! ## Date-shape checks

The three regular expressions of the source:
`r'^\d{4}-\d{2}-\d{2}$'` used by `extract_address` (line 133),
`r'^\d{4}-\d{2}-\d{2}'` used by `ensure_date_in_filename` (line 183), and
the strict calendar pattern compiled in `__init__` (line 33). -/

/-- Full match of `\d{4}-\d{2}-\d{2}` (the loose check of
`extract_address`). -/
def looseDateFull (s : String) : Bool :=
  match s.data with
  | [y1, y2, y3, y4, s1, m1, m2, s2, d1, d2] =>
    y1.isDigit && y2.isDigit && y3.isDigit && y4.isDigit && s1 == '-' &&
    m1.isDigit && m2.isDigit && s2 == '-' && d1.isDigit && d2.isDigit
  | _ => false

/-- Match of `\d{4}-\d{2}-\d{2}` at the start of the string (the loose
check of `ensure_date_in_filename`; `re.match` anchors only at the
start). -/
def dateShapeAtStart (s : String) : Bool :=
  match s.data with
  | y1 :: y2 :: y3 :: y4 :: s1 :: m1 :: m2 :: s2 :: d1 :: d2 :: _ =>
    y1.isDigit && y2.isDigit && y3.isDigit && y4.isDigit && s1 == '-' &&
    m1.isDigit && m2.isDigit && s2 == '-' && d1.isDigit && d2.isDigit
  | _ => false

/-- The strict calendar pattern
`^(20\d{2}|19\d{2})-(0[1-9]|1[0-2])-(0[1-9]|[12]\d|3[01])$` compiled as
`self.date_pattern` in `__init__` (and never consulted by
`extract_address`). -/
def strict_date_pattern (s : String) : Bool :=
  match s.data with
  | [y1, y2, y3, y4, s1, m1, m2, s2, d1, d2] =>
    (((y1 == '2') && (y2 == '0')) || ((y1 == '1') && (y2 == '9'))) &&
    y3.isDigit && y4.isDigit && (s1 == '-') &&
    (((m1 == '0') && m2.isDigit && (m2 != '0')) ||
      ((m1 == '1') && ((m2 == '0') || (m2 == '1') || (m2 == '2')))) &&
    (s2 == '-') &&
    (((d1 == '0') && d2.isDigit && (d2 != '0')) ||
      (((d1 == '1') || (d1 == '2')) && d2.isDigit) ||
      ((d1 == '3') && ((d2 == '0') || (d2 == '1'))))
  | _ => false

/-! ## AddressExtractor (`extract_address`, lines 106-144) -/

/-- The segment pipeline of `extract_address`: strip the extension, split
the stem on `" - "`, trim each segment, drop empty segments. -/
def extractParts (filename : String) : List String :=
  ((pySplit " - " (pySplitext filename).1).map pyStrip).filter (fun p => p ≠ "")

/-- Model of `FileMoverService.extract_address`. -/
def extract_address (filename : String) : Option String :=
  if filename = "" then none
  else
    match extractParts filename with
    | [] => none
    | p0 :: tail =>
      match tail with
      | p1 :: _ => if looseDateFull p0 then some p1 else some p0
      | [] => some p0

/-! ## FilenameNormalizer (`ensure_date_in_filename`, lines 172-194)

The current date is an injected input: the code formats
`datetime.date.today()` as `YYYY-MM-DD`, so the injected string always
satisfies `dateShapeAtStart`. -/

/-- Model of `FileMoverService.ensure_date_in_filename`. -/
def ensure_date_in_filename (today : String) (filename : String) : String :=
  if dateShapeAtStart filename then filename else today ++ " - " ++ filename

/-! ## FolderIndex / FolderMatcher (lines 318-370) -/

/-- Python dict semantics (3.7+) over an insertion-ordered entry list: a
new key is appended, an existing key keeps its position and receives the
new value. -/
def dictInsert {α : Type} (k : String) (v : α) :
    List (String × α) → List (String × α)
  | [] => [(k, v)]
  | (k', v') :: rest =>
    if k' = k then (k, v) :: rest else (k', v') :: dictInsert k v rest

/-- Python dict key lookup over the insertion-ordered entry list. -/
def dictFind {α : Type} (k : String) : List (String × α) → Option α
  | [] => none
  | (k', v) :: rest => if k' = k then some v else dictFind k rest

/-- The fragment a destination directory name contributes to the lookup:
second raw-hyphen segment, stripped and lowercased; `none` when the name
has fewer than two hyphen segments (such directories are excluded). -/
def fragmentOf (name : String) : Option String :=
  match pySplit "-" name with
  | _ :: p1 :: _ => some (pyLower (pyStrip p1))
  | _ => none

/-- Model of `FileMoverService._build_folder_lookup`: `folders` are the
immediate subdirectories of the destination root in enumeration order,
`nameOf` gives a directory's name. -/
def _build_folder_lookup {α : Type} (nameOf : α → String) (folders : List α) :
    List (String × α) :=
  folders.foldl
    (fun acc folder =>
      match fragmentOf (nameOf folder) with
      | some key => dictInsert key folder acc
      | none => acc)
    []

/-- The symmetric containment test of the matcher:
`folder_address in address_lower or address_lower in folder_address`. -/
def matchesFragment {α : Type} (address_lower : String) (e : String × α) : Bool :=
  pyContainsSub address_lower.data e.1.data ||
    pyContainsSub e.1.data address_lower.data

/-- Model of `FileMoverService._find_matching_folder_from_lookup`: exact
dict lookup of the lowercased address first, then the first entry in
insertion order standing in symmetric substring containment. -/
def _find_matching_folder_from_lookup {α : Type} (address : String)
    (folder_lookup : List (String × α)) : Option α :=
  match dictFind (pyLower address) folder_lookup with
  | some v => some v
  | none =>
    match folder_lookup.find? (matchesFragment (pyLower address)) with
    | some e => some e.2
    | none => none

/-! ## Filesystem model -/

/-- A directory path: its components from the root. -/
abbrev DirPath := List String

/-- A file path: containing directory plus file name. -/
structure FsPath where
  dir : DirPath
  name : String
deriving DecidableEq

/-- Filesystem state: the existing files and directories, as lists (list
order models platform enumeration order). -/
structure FS where
  files : List FsPath
  dirs : List DirPath
deriving DecidableEq

/-- `Path.mkdir(exist_ok=True)`: create if missing, never an error when the
directory already exists. -/
def mkdir (fs : FS) (d : DirPath) : FS :=
  if d ∈ fs.dirs then fs else { fs with dirs := d :: fs.dirs }

/-! ## CollisionResolver (`handle_duplicate_file`, lines 196-217) -/

/-- The candidate `<stem>_<counter><ext>` sibling tried by
`handle_duplicate_file` (`pathlib` stem and suffix). -/
def dupCandidate (p : FsPath) (counter : Nat) : FsPath :=
  { dir := p.dir
    name := pathStem p.name ++ "_" ++ Nat.repr counter ++ pathSuffix p.name }

/-- The `while True` search of `handle_duplicate_file`: first counter from
`counter` upward whose candidate does not exist.  Fuel `files.length + 1`
always suffices (the candidates are pairwise distinct, so some counter in
the window is free); it only makes the recursion structural. -/
def findFreeCounter (files : List FsPath) (p : FsPath) : Nat → Nat → Nat
  | 0, counter => counter
  | fuel + 1, counter =>
    if dupCandidate p counter ∈ files then findFreeCounter files p fuel (counter + 1)
    else counter

/-- Model of `FileMoverService.handle_duplicate_file` over the list of
existing files. -/
def handle_duplicate_file (files : List FsPath) (destination_path : FsPath) :
    FsPath :=
  if destination_path ∈ files then
    dupCandidate destination_path
      (findFreeCounter files destination_path (files.length + 1) 1)
  else destination_path

/-! ## Mover (`move_file`, lines 219-287) -/

/-- Outcome of one `shutil.move` attempt, injected as an oracle (the
filesystem and OS decide). -/
inductive MoveRes
  | success
  | permErr
  | otherErr
deriving DecidableEq

/-- Per-file result of `move_file`, recording the destination and how many
move attempts and one-second waits happened. -/
inductive MoveOutcome
  | srcMissing
  | noAddress
  | noFolder
  | moved (dest : FsPath) (attempts : Nat) (slept : Nat)
  | moveFailed (dest : FsPath) (attempts : Nat) (slept : Nat)
deriving DecidableEq

/-- A successful `shutil.move` on our state (when called, the destination
never exists: the duplicate check just ran). -/
def doMove (fs : FS) (src dst : FsPath) : FS :=
  { fs with files := dst :: fs.files.erase src }

/-- The tail of `move_file` (lines 267-287): duplicate handling and the
guarded `shutil.move` with its single permission retry.  `att n` is the
outcome of the `n`-th `shutil.move` attempt.  Only a `PermissionError` on
the first attempt triggers the single retry, after a `time.sleep(1)`; any
error escaping the inner `try` is caught by the outer handler (logged; the
file stays where it is and processing goes on).  The source's
`if destination_path.exists(): destination_path = handle_duplicate_file(...)`
collapses into the unconditional call, since `handle_duplicate_file`
returns its argument unchanged when no file exists at it. -/
def finishMove (today : String) (att : Nat → MoveRes) (fs1 : FS)
    (final_destination : DirPath) (file_path : FsPath) : FS × MoveOutcome :=
  match att 0 with
  | .success =>
    (doMove fs1 file_path
        (handle_duplicate_file fs1.files
          ⟨final_destination, ensure_date_in_filename today file_path.name⟩),
      .moved
        (handle_duplicate_file fs1.files
          ⟨final_destination, ensure_date_in_filename today file_path.name⟩)
        1 0)
  | .otherErr =>
    (fs1,
      .moveFailed
        (handle_duplicate_file fs1.files
          ⟨final_destination, ensure_date_in_filename today file_path.name⟩)
        1 0)
  | .permErr =>
    match att 1 with
    | .success =>
      (doMove fs1 file_path
          (handle_duplicate_file fs1.files
            ⟨final_destination, ensure_date_in_filename today file_path.name⟩),
        .moved
          (handle_duplicate_file fs1.files
            ⟨final_destination, ensure_date_in_filename today file_path.name⟩)
          2 1)
    | _ =>
      (fs1,
        .moveFailed
          (handle_duplicate_file fs1.files
            ⟨final_destination, ensure_date_in_filename today file_path.name⟩)
          2 1)

/-- Model of `FileMoverService.move_file`: existence check, address
extraction, folder match, date normalisation, subfolder routing with
idempotent directory creation, then `finishMove`. -/
def move_file (today : String) (att : Nat → MoveRes)
    (folder_lookup : List (String × DirPath)) (fs : FS) (file_path : FsPath) :
    FS × MoveOutcome :=
  if file_path ∈ fs.files then
    match extract_address file_path.name with
    | none => (fs, .noAddress)
    | some address =>
      match _find_matching_folder_from_lookup address folder_lookup with
      | none => (fs, .noFolder)
      | some destination_folder =>
        if pyContainsSub (pyLower file_path.name).data
            (pyLower "Banks Fee Letter").data then
          finishMove today att
            (mkdir fs (destination_folder ++ ["Contracts"]))
            (destination_folder ++ ["Contracts"]) file_path
        else
          finishMove today att
            (mkdir (mkdir fs (destination_folder ++ ["Correspondence"]))
              (destination_folder ++ ["Correspondence", today]))
            (destination_folder ++ ["Correspondence", today]) file_path
  else (fs, .srcMissing)

/-! ## Cycle (`process_files`, lines 289-316) -/

/-- Immediate subdirectories of `parent` among the existing directories,
in enumeration order. -/
def childrenOf (dirs : List DirPath) (parent : DirPath) : List DirPath :=
  dirs.filter (fun d => decide (d ≠ [] ∧ d.dropLast = parent))

/-- Name of a directory: its last path component. -/
def dirName (d : DirPath) : String := d.getLastD ""

/-- Whether a file's processing fails: address extraction, folder match, or
the move itself (after its one possible retry).  Extraction and matching
depend only on the name and the cycle's lookup, the move on its oracle. -/
def fileFails (att : Nat → MoveRes) (folder_lookup : List (String × DirPath))
    (name : String) : Bool :=
  match extract_address name with
  | none => true
  | some address =>
    match _find_matching_folder_from_lookup address folder_lookup with
    | none => true
    | some _ =>
      match att 0 with
      | .success => false
      | .otherErr => true
      | .permErr =>
        match att 1 with
        | .success => false
        | _ => true

/-- One iteration of the `for file_path in files_to_process` loop: run
`move_file` on the current state and append the per-file outcome to the
cycle log. -/
def processStep (today : String) (att : FsPath → Nat → MoveRes)
    (folder_lookup : List (String × DirPath))
    (st : FS × List (FsPath × MoveOutcome)) (f : FsPath) :
    FS × List (FsPath × MoveOutcome) :=
  ((move_file today (att f) folder_lookup st.1 f).1,
    st.2 ++ [(f, (move_file today (att f) folder_lookup st.1 f).2)])

/-- Model of `FileMoverService.process_files`: build the lookup once,
snapshot the source files, then process each snapshot entry, collecting a
log of per-file outcomes (the per-file `try/except` means every entry is
processed).  `att f` is the move-attempt oracle for file `f`. -/
def process_files (today : String) (att : FsPath → Nat → MoveRes)
    (source_folder destination_parent : DirPath) (fs : FS) :
    FS × List (FsPath × MoveOutcome) :=
  (fs.files.filter (fun f => decide (f.dir = source_folder))).foldl
    (processStep today att
      (_build_folder_lookup dirName (childrenOf fs.dirs destination_parent)))
    (fs, [])

/-! ## Scheduler (`run_service_loop`, lines 372-412)

Time is discretised at flag reads: `running i` is the value of
`self.running` seen by the `i`-th read of the loop (the signal handler is
the only writer and only ever writes `False`).  A trace records processing
passes and sleeps. -/

/-- Events of the service loop trace. -/
inductive TickEvent
  | pass
  | sleep1
  | sleepFrac
deriving DecidableEq

/-- The `for _ in range(int(sleep_time))` loop: before each one-second
sleep the running flag is read; a false read breaks out.  Returns the
events and the next read index. -/
def sleepWhole (running : Nat → Bool) : Nat → Nat → List TickEvent × Nat
  | i, 0 => ([], i)
  | i, w + 1 =>
    if running i then
      let r := sleepWhole running (i + 1) w
      (TickEvent.sleep1 :: r.1, r.2)
    else ([], i + 1)

/-- Model of `FileMoverService.run_service_loop`.  `elapsed c` is the
externally measured duration of the `c`-th processing pass, `fuel` bounds
the number of simulated `while` iterations.  Each flag read (the `while`
condition, each sleep-loop check, the fractional-sleep condition) consumes
one read index. -/
def run_service_loop (interval : ℚ) (elapsed : Nat → ℚ) (running : Nat → Bool) :
    Nat → Nat → Nat → List TickEvent
  | _, _, 0 => []
  | i, c, fuel + 1 =>
    if running i then
      let sleep_time := max 0 (interval - elapsed c)
      let whole := (⌊sleep_time⌋).toNat
      let frac := decide ((⌊sleep_time⌋ : ℚ) < sleep_time)
      let r :=
        if 0 < sleep_time then
          let r1 := sleepWhole running (i + 1) whole
          let r2 : List TickEvent × Nat :=
            if running r1.2 && frac then ([TickEvent.sleepFrac], r1.2 + 1)
            else ([], r1.2 + 1)
          (r1.1 ++ r2.1, r2.2)
        else ([], i + 1)
      TickEvent.pass :: (r.1 ++ run_service_loop interval elapsed running r.2 (c + 1) fuel)
    else []

/-! ## Theorems -/

theorem breakOnSub_post_length {sep : List Char} (hs : sep ≠ []) :
    ∀ {l pre post : List Char}, breakOnSub sep l = some (pre, post) →
      post.length < l.length := by
  intro l
  induction l with
  | nil => intro pre post h; simp [breakOnSub] at h
  | cons c cs ih =>
    intro pre post h
    simp only [breakOnSub] at h
    by_cases hp : pyStartsWith (c :: cs) sep = true
    · simp [hp] at h
      obtain ⟨h1, h2⟩ := h
      subst h2
      have hlen : 1 ≤ sep.length := by
        cases sep with
        | nil => exact absurd rfl hs
        | cons _ _ => simp
      simp only [List.length_drop, List.length_cons]
      omega
    · simp [hp] at h
      cases hbr : breakOnSub sep cs with
      | none => simp [hbr] at h
      | some pr =>
        obtain ⟨pre', post'⟩ := pr
        simp [hbr] at h
        obtain ⟨h1, h2⟩ := h
        subst h2
        have := ih hbr
        simp only [List.length_cons]
        omega

theorem pySplitCore_fuel {sep : List Char} (hs : sep ≠ []) :
    ∀ (fuel fuel' : Nat) (l : List Char), l.length < fuel → l.length < fuel' →
      pySplitCore sep fuel l = pySplitCore sep fuel' l := by
  intro fuel
  induction fuel with
  | zero => intro fuel' l h; omega
  | succ f ih =>
    intro fuel' l h h'
    cases fuel' with
    | zero => omega
    | succ f' =>
      simp only [pySplitCore]
      cases hbr : breakOnSub sep l with
      | none => rfl
      | some pr =>
        obtain ⟨pre, post⟩ := pr
        have hlt := breakOnSub_post_length hs hbr
        simp only []
        rw [ih f' post (by omega) (by omega)]

theorem data_append (s1 s2 : String) : (s1 ++ s2).data = s1.data ++ s2.data := by
  cases s1; cases s2; rfl

theorem pyStartsWith_nil (l : List Char) : pyStartsWith l [] = true := by
  cases l <;> rfl

theorem pyStartsWith_append_self (p r : List Char) :
    pyStartsWith (p ++ r) p = true := by
  induction p with
  | nil => exact pyStartsWith_nil r
  | cons c cs ih => simp [pyStartsWith, ih]

theorem pyStartsWith_append_of_le (p : List Char) :
    ∀ (l r : List Char), p.length ≤ l.length →
      pyStartsWith (l ++ r) p = pyStartsWith l p := by
  induction p with
  | nil => intro l r _; rw [pyStartsWith_nil, pyStartsWith_nil]
  | cons q qs ih =>
    intro l r h
    cases l with
    | nil => simp at h
    | cons c cs =>
      simp only [List.cons_append, pyStartsWith, List.append_eq]
      rw [ih cs r (by simpa using h)]

theorem breakOnSub_first {sep : List Char} (hs : sep ≠ []) :
    ∀ (l : List Char) (i : Nat),
      pyStartsWith (l.drop i) sep = true →
      (∀ j < i, pyStartsWith (l.drop j) sep = false) →
      breakOnSub sep l = some (l.take i, l.drop (i + sep.length)) := by
  intro l
  induction l with
  | nil =>
    intro i hocc _
    exfalso
    cases sep with
    | nil => exact hs rfl
    | cons s ss => simp [List.drop_nil, pyStartsWith] at hocc
  | cons c cs ih =>
    intro i hocc hb
    cases i with
    | zero =>
      simp only [List.drop_zero] at hocc
      simp [breakOnSub, hocc]
    | succ i' =>
      have h0 : pyStartsWith (c :: cs) sep = false := by
        have := hb 0 (Nat.succ_pos i')
        simpa using this
      have hocc' : pyStartsWith (cs.drop i') sep = true := by simpa using hocc
      have hb' : ∀ j < i', pyStartsWith (cs.drop j) sep = false := by
        intro j hj
        have := hb (j + 1) (by omega)
        simpa using this
      have hrec := ih i' hocc' hb'
      simp [breakOnSub, h0, hrec, Nat.succ_add]

theorem breakOnSub_boundary (xs ys : List Char) (hxs : cleanSegment xs) :
    breakOnSub sepChars (xs ++ sepChars ++ ys) = some (xs, ys) := by
  have hocc : pyStartsWith ((xs ++ sepChars ++ ys).drop xs.length) sepChars = true := by
    rw [List.append_assoc, List.drop_left]
    exact pyStartsWith_append_self sepChars ys
  have hb : ∀ j < xs.length,
      pyStartsWith ((xs ++ sepChars ++ ys).drop j) sepChars = false := by
    intro j hj
    have h1 : (xs ++ sepChars ++ ys).drop j = (xs ++ sepChars).drop j ++ ys :=
      List.drop_append_of_le_length (by simp; omega)
    rw [h1, pyStartsWith_append_of_le]
    · exact hxs j hj
    · simp [sepChars]
      omega
  have hbr := @breakOnSub_first sepChars (by simp [sepChars])
    (xs ++ sepChars ++ ys) xs.length hocc hb
  have ht : (xs ++ sepChars ++ ys).take xs.length = xs := by
    rw [List.append_assoc]
    exact List.take_left xs (sepChars ++ ys)
  have hd : (xs ++ sepChars ++ ys).drop (xs.length + sepChars.length) = ys := by
    have h2 : ((xs ++ sepChars) ++ ys).drop (xs ++ sepChars).length = ys :=
      List.drop_left _ _
    rwa [List.length_append] at h2
  rw [hbr, ht, hd]

theorem pySplitCore_break {sep l pre post : List Char} {fuel : Nat}
    (hs : sep ≠ []) (hbr : breakOnSub sep l = some (pre, post))
    (hfuel : l.length < fuel) :
    pySplitCore sep fuel l = pre :: pySplitCore sep (post.length + 1) post := by
  cases fuel with
  | zero => omega
  | succ f =>
    have hpost := breakOnSub_post_length hs hbr
    conv_lhs => rw [pySplitCore]
    rw [hbr]
    show pre :: pySplitCore sep f post = _
    congr 1
    exact pySplitCore_fuel hs f (post.length + 1) post (by omega) (by omega)

theorem pySplitCore_boundary (xs ys : List Char) (hxs : cleanSegment xs)
    (fuel : Nat) (hfuel : (xs ++ sepChars ++ ys).length < fuel) :
    pySplitCore sepChars fuel (xs ++ sepChars ++ ys) =
      xs :: pySplitCore sepChars (ys.length + 1) ys :=
  pySplitCore_break (by simp [sepChars]) (breakOnSub_boundary xs ys hxs) hfuel

theorem rfindDot_none {t : List Char} (ht : '.' ∉ t) : rfindDot t = none := by
  induction t with
  | nil => rfl
  | cons c cs ih =>
    simp only [List.mem_cons, not_or] at ht
    have hc : (c == '.') = false := by
      simp only [beq_eq_false_iff_ne]
      exact fun h => ht.1 h.symm
    simp [rfindDot, ih ht.2, hc]

theorem rfindDot_append_dot (l t : List Char) (ht : '.' ∉ t) :
    rfindDot (l ++ '.' :: t) = some l.length := by
  induction l with
  | nil => simp [rfindDot, rfindDot_none ht]
  | cons c cs ih => simp [rfindDot, ih]

theorem pySplitext_append_ext (stem t : String) (ht : '.' ∉ t.data)
    (hne : stem.data.any (fun c => c != '.') = true) :
    pySplitext (stem ++ "." ++ t) = (stem, "." ++ t) := by
  obtain ⟨sd⟩ := stem
  obtain ⟨td⟩ := t
  have hd : ((⟨sd⟩ : String) ++ "." ++ (⟨td⟩ : String)).data = sd ++ '.' :: td := by
    rw [data_append, data_append, List.append_assoc]
    rfl
  unfold pySplitext
  rw [hd, rfindDot_append_dot _ _ ht]
  have htake : (sd ++ '.' :: td).take sd.length = sd := List.take_left _ _
  have hdrop : (sd ++ '.' :: td).drop sd.length = '.' :: td := List.drop_left _ _
  show (if ((sd ++ '.' :: td).take sd.length).any (fun c => c != '.') then _ else _) = _
  rw [htake, hdrop, if_pos hne]
  rfl

theorem isDigit_ne {c : Char} (h : c.isDigit = true) (d : Char)
    (hd : d.isDigit = false) : c ≠ d := by
  intro he
  rw [he, hd] at h
  exact Bool.noConfusion h

theorem digit_or_dash_facts {c : Char} (h : (c.isDigit || c == '-') = true) :
    pyIsSpace c = false ∧ (c == ' ') = false ∧ (c != '.') = true := by
  rcases (by simpa using h : c.isDigit = true ∨ c = '-') with hd | hd
  · refine ⟨?_, ?_, ?_⟩
    · simp only [pyIsSpace, Bool.or_eq_false_iff, beq_eq_false_iff_ne]
      exact ⟨⟨⟨⟨⟨isDigit_ne hd ' ' (by decide), isDigit_ne hd '\t' (by decide)⟩,
        isDigit_ne hd '\n' (by decide)⟩, isDigit_ne hd '\r' (by decide)⟩,
        isDigit_ne hd '\x0b' (by decide)⟩, isDigit_ne hd '\x0c' (by decide)⟩
    · simp only [beq_eq_false_iff_ne]
      exact isDigit_ne hd ' ' (by decide)
    · simp only [bne_iff_ne]
      exact isDigit_ne hd '.' (by decide)
  · subst hd
    exact ⟨by decide, by decide, by decide⟩

theorem cleanSegment_of_no_space {xs : List Char}
    (h : ∀ c ∈ xs, (c == ' ') = false) : cleanSegment xs := by
  intro j hj
  rw [List.drop_append_of_le_length (Nat.le_of_lt hj),
    List.drop_eq_getElem_cons hj]
  simp only [List.cons_append, sepChars, pyStartsWith]
  rw [h (xs[j]) (xs.getElem_mem hj)]
  rfl

theorem pyStrip_eq_self {s : String} (h : ∀ c ∈ s.data, pyIsSpace c = false) :
    pyStrip s = s := by
  obtain ⟨d⟩ := s
  show pyStrip ⟨d⟩ = ⟨d⟩
  unfold pyStrip
  have h1 : d.dropWhile pyIsSpace = d := by
    cases hd : d with
    | nil => rfl
    | cons c cs =>
      rw [List.dropWhile_cons, h c (by rw [hd]; exact List.mem_cons_self c cs)]
      simp
  rw [h1]
  have h2 : d.reverse.dropWhile pyIsSpace = d.reverse := by
    cases hd : d.reverse with
    | nil => rfl
    | cons c cs =>
      have hc : c ∈ d := by
        rw [← List.mem_reverse, hd]
        exact List.mem_cons_self c cs
      rw [List.dropWhile_cons, h c hc]
      simp
  rw [h2, List.reverse_reverse]

theorem strict_date_chars {s : String} (h : strict_date_pattern s = true) :
    ∀ c ∈ s.data, (c.isDigit || c == '-') = true := by
  unfold strict_date_pattern at h
  split at h
  next y1 y2 y3 y4 s1 m1 m2 s2 d1 d2 heq =>
    rw [heq]
    simp only [Bool.and_eq_true, Bool.or_eq_true, beq_iff_eq, bne_iff_ne] at h
    obtain ⟨⟨⟨⟨⟨⟨hy, hy3⟩, hy4⟩, hs1⟩, hm⟩, hs2⟩, hd⟩ := h
    intro c hc
    simp only [List.mem_cons, List.not_mem_nil, or_false] at hc
    rcases hc with rfl | rfl | rfl | rfl | rfl | rfl | rfl | rfl | rfl | rfl
    · rcases hy with ⟨rfl, _⟩ | ⟨rfl, _⟩ <;> decide
    · rcases hy with ⟨_, rfl⟩ | ⟨_, rfl⟩ <;> decide
    · simp [hy3]
    · simp [hy4]
    · rw [hs1]; decide
    · rcases hm with ⟨⟨rfl, _⟩, _⟩ | ⟨rfl, _⟩ <;> decide
    · rcases hm with ⟨⟨_, hm2⟩, _⟩ | ⟨_, (rfl | rfl) | rfl⟩ <;>
        first | simp [hm2] | decide
    · rw [hs2]; decide
    · rcases hd with (⟨⟨rfl, _⟩, _⟩ | ⟨rfl | rfl, _⟩) | ⟨rfl, _⟩ <;> decide
    · rcases hd with (⟨⟨_, hd2⟩, _⟩ | ⟨_, hd2⟩) | ⟨_, rfl | rfl⟩ <;>
        first | simp [hd2] | decide
  next => exact absurd h (by simp)

theorem strict_imp_loose {s : String} (h : strict_date_pattern s = true) :
    looseDateFull s = true := by
  have hchars := strict_date_chars h
  unfold strict_date_pattern at h
  unfold looseDateFull
  split at h
  next y1 y2 y3 y4 s1 m1 m2 s2 d1 d2 heq =>
    clear hchars
    simp only [Bool.and_eq_true, Bool.or_eq_true, beq_iff_eq, bne_iff_ne] at h
    obtain ⟨⟨⟨⟨⟨⟨hy, hy3⟩, hy4⟩, hs1⟩, hm⟩, hs2⟩, hd⟩ := h
    have hy1 : y1.isDigit = true := by
      rcases hy with ⟨rfl, _⟩ | ⟨rfl, _⟩ <;> decide
    have hy2 : y2.isDigit = true := by
      rcases hy with ⟨_, rfl⟩ | ⟨_, rfl⟩ <;> decide
    have hm1 : m1.isDigit = true := by
      rcases hm with ⟨⟨rfl, _⟩, _⟩ | ⟨rfl, _⟩ <;> decide
    have hm2 : m2.isDigit = true := by
      rcases hm with ⟨⟨_, hm2⟩, _⟩ | ⟨_, (rfl | rfl) | rfl⟩ <;>
        first | exact hm2 | decide
    have hd1 : d1.isDigit = true := by
      rcases hd with (⟨⟨rfl, _⟩, _⟩ | ⟨rfl | rfl, _⟩) | ⟨rfl, _⟩ <;> decide
    have hd2 : d2.isDigit = true := by
      rcases hd with (⟨⟨_, hd2⟩, _⟩ | ⟨_, hd2⟩) | ⟨_, rfl | rfl⟩ <;>
        first | exact hd2 | decide
    simp [hy1, hy2, hy3, hy4, hs1, hm1, hm2, hs2, hd1, hd2]
  next => exact absurd h (by simp)

theorem strict_date_facts {s : String} (h : strict_date_pattern s = true) :
    looseDateFull s = true ∧ pyStrip s = s ∧ s ≠ "" ∧ cleanSegment s.data ∧
      s.data.any (fun c => c != '.') = true := by
  have hchars := strict_date_chars h
  have hne : s ≠ "" := by
    intro hs
    rw [hs] at h
    exact absurd h (by decide)
  refine ⟨strict_imp_loose h, ?_, hne, ?_, ?_⟩
  · exact pyStrip_eq_self fun c hc => (digit_or_dash_facts (hchars c hc)).1
  · exact cleanSegment_of_no_space fun c hc => (digit_or_dash_facts (hchars c hc)).2.1
  · cases hd : s.data with
    | nil =>
      exfalso
      apply hne
      cases s
      simp at hd
      rw [hd]
    | cons c cs =>
      have hc : c ∈ s.data := by rw [hd]; exact List.mem_cons_self c cs
      simp only [List.any_cons, Bool.or_eq_true]
      exact Or.inl (digit_or_dash_facts (hchars c hc)).2.2

theorem extractParts_empty : extractParts "" = [] := by decide

theorem string_mk_data (s : String) : String.mk s.data = s := by cases s; rfl

/-- Claim C5: for filenames `D - A - R.t` with `D` a strict calendar date,
`A` a non-empty segment (the `" - "` delimiter cannot cut through `A`, and
`A` does not trim to empty), and an extension `.t` containing no further
dot, `extract_address` returns `A` trimmed.  `extract_address ""` is
`none`, and so is any filename whose stem reduces to zero non-empty
segments. -/
theorem c5_extract_address_date_form :
    (∀ (D A R t : String),
      strict_date_pattern D = true →
      pyStrip A ≠ "" →
      cleanSegment A.data →
      '.' ∉ t.data →
      extract_address (D ++ " - " ++ A ++ " - " ++ R ++ "." ++ t) =
        some (pyStrip A)) ∧
    extract_address "" = none ∧
    (∀ f, extractParts f = [] → extract_address f = none) := by
  refine ⟨?_, by decide, ?_⟩
  · intro D A R t hD hA hAc ht
    obtain ⟨hloose, hstrip, hDne, hDclean, hDany⟩ := strict_date_facts hD
    have hsepd : (" - ").data = sepChars := rfl
    set stem : String := D ++ " - " ++ A ++ " - " ++ R with hstemdef
    have hshape : D ++ " - " ++ A ++ " - " ++ R ++ "." ++ t = stem ++ "." ++ t := rfl
    have hsd : stem.data = D.data ++ sepChars ++ (A.data ++ sepChars ++ R.data) := by
      rw [hstemdef]
      simp only [data_append, List.append_assoc, sepChars]
    have hany : stem.data.any (fun c => c != '.') = true := by
      rw [hsd]
      simp only [List.any_append, Bool.or_eq_true]
      exact Or.inl (Or.inl hDany)
    have hsplitext := pySplitext_append_ext stem t ht hany
    have hcore1 := pySplitCore_boundary D.data (A.data ++ sepChars ++ R.data)
      hDclean ((D.data ++ sepChars ++ (A.data ++ sepChars ++ R.data)).length + 1)
      (Nat.lt_succ_self _)
    have hcore2 := pySplitCore_boundary A.data R.data hAc
      ((A.data ++ sepChars ++ R.data).length + 1) (Nat.lt_succ_self _)
    have hps : pySplit " - " stem =
        D :: A :: (pySplitCore sepChars (R.data.length + 1) R.data).map String.mk := by
      show (pySplitCore sepChars (stem.data.length + 1) stem.data).map String.mk = _
      rw [hsd, hcore1, hcore2]
      simp [string_mk_data]
    have hparts : extractParts (stem ++ "." ++ t) =
        D :: pyStrip A ::
          (((pySplitCore sepChars (R.data.length + 1) R.data).map String.mk).map
            pyStrip).filter (fun p => p ≠ "") := by
      unfold extractParts
      rw [hsplitext]
      show ((pySplit " - " stem).map pyStrip).filter (fun p => p ≠ "") = _
      rw [hps]
      simp only [List.map_cons, List.filter_cons]
      rw [hstrip]
      simp [hDne, hA]
    have hfne : stem ++ "." ++ t ≠ "" := by
      intro h
      have hdata : (stem ++ "." ++ t).data = [] := by rw [h]
      rw [data_append, data_append] at hdata
      simp at hdata
    rw [hshape]
    unfold extract_address
    rw [if_neg hfne, hparts]
    simp [hloose]
  · intro f h
    by_cases hf : f = ""
    · simp [extract_address, hf]
    · simp [extract_address, hf, h]

theorem c5_extract_address_date_form_witness :
    extract_address
        ("2023-01-01" ++ " - " ++ "123 Main St" ++ " - " ++ "Document" ++ "." ++ "pdf") =
      some (pyStrip "123 Main St") ∧
    extract_address " - .pdf" = none :=
  ⟨c5_extract_address_date_form.1 "2023-01-01" "123 Main St" "Document" "pdf"
      (by decide) (by decide) (by decide) (by decide),
    c5_extract_address_date_form.2.2 " - .pdf" (by decide)⟩

/-- Claim C1 as stated is false: the filename `9999-99-99 - address.pdf`
has a date-shaped but calendrically invalid first segment, yet
`extract_address` returns the second segment (`"address"`), not the first
segment itself.  The strict calendar pattern of `__init__` is not what
`extract_address` consults. -/
theorem c1_counterexample :
    extractParts "9999-99-99 - address.pdf" = ["9999-99-99", "address"] ∧
    looseDateFull "9999-99-99" = true ∧
    strict_date_pattern "9999-99-99" = false ∧
    extract_address "9999-99-99 - address.pdf" = some "address" ∧
    extract_address "9999-99-99 - address.pdf" ≠ some "9999-99-99" := by
  refine ⟨by decide, by decide, by decide, by decide, by decide⟩

/-- Claim C1, amended: `extract_address` consults only the loose
digit-shape pattern `\d{4}-\d{2}-\d{2}`.  Whenever at least two non-empty
segments remain, a date-shaped first segment — calendrically valid or not —
causes segment 1 to be returned, and a first segment that is not
date-shaped causes segment 0 to be returned. -/
theorem c1_loose_shape_decides (f p0 p1 : String) (rest : List String)
    (h : extractParts f = p0 :: p1 :: rest) :
    (looseDateFull p0 = true → extract_address f = some p1) ∧
    (looseDateFull p0 = false → extract_address f = some p0) := by
  have hf : f ≠ "" := by
    intro hf0
    rw [hf0, extractParts_empty] at h
    exact List.noConfusion h
  constructor <;> intro hl <;> simp [extract_address, hf, h, hl]

theorem c1_loose_shape_decides_witness :
    extract_address "9999-99-99 - address.pdf" = some "address" :=
  (c1_loose_shape_decides "9999-99-99 - address.pdf" "9999-99-99" "address"
    [] (by decide)).1 (by decide)

theorem pyContainsSub_nil (l : List Char) : pyContainsSub l [] = true := by
  unfold pyContainsSub
  rw [pyStartsWith_nil]
  rfl

theorem pyStartsWith_self (l : List Char) : pyStartsWith l l = true := by
  have h := pyStartsWith_append_self l []
  rwa [List.append_nil] at h

theorem pyContainsSub_self (l : List Char) : pyContainsSub l l = true := by
  unfold pyContainsSub
  rw [pyStartsWith_self]
  rfl

theorem dictFind_insert {α : Type} (k k' : String) (v : α) (l : List (String × α)) :
    dictFind k (dictInsert k' v l) = if k' = k then some v else dictFind k l := by
  induction l with
  | nil => rfl
  | cons e rest ih =>
    obtain ⟨a, b⟩ := e
    by_cases hak : a = k'
    · subst hak
      simp [dictInsert, dictFind]
      by_cases h : a = k <;> simp [h]
    · simp only [dictInsert, if_neg hak, dictFind]
      by_cases h : a = k
      · subst h
        have : k' ≠ a := fun he => hak he.symm
        simp [dictFind, this]
      · simp [dictFind, h, ih]

theorem dictFind_mem {α : Type} {k : String} {v : α} :
    ∀ {l : List (String × α)}, dictFind k l = some v → (k, v) ∈ l := by
  intro l
  induction l with
  | nil => intro h; exact absurd h (by simp [dictFind])
  | cons e rest ih =>
    obtain ⟨a, b⟩ := e
    intro h
    simp only [dictFind] at h
    by_cases hak : a = k
    · subst hak
      simp only [if_pos rfl] at h
      obtain rfl := Option.some.inj h
      exact List.mem_cons_self _ _
    · rw [if_neg hak] at h
      exact List.mem_cons_of_mem _ (ih h)

theorem build_lookup_go {α : Type} (nameOf : α → String) (k : String) :
    ∀ (folders : List α) (acc : List (String × α)),
      dictFind k
        (folders.foldl
          (fun acc folder =>
            match fragmentOf (nameOf folder) with
            | some key => dictInsert key folder acc
            | none => acc)
          acc) =
        ((folders.filter fun d => decide (fragmentOf (nameOf d) = some k)).getLast?).elim
          (dictFind k acc) some := by
  intro folders
  induction folders with
  | nil => intro acc; rfl
  | cons d rest ih =>
    intro acc
    rw [List.foldl_cons, ih]
    rw [List.filter_cons]
    by_cases hd : fragmentOf (nameOf d) = some k
    · rw [if_pos (by simpa using hd)]
      cases hfl : rest.filter fun d => decide (fragmentOf (nameOf d) = some k) with
      | nil =>
        rw [hd]
        simp [dictFind_insert]
      | cons x xs =>
        rw [List.getLast?_cons_cons]
        cases hxl : (x :: xs).getLast? with
        | none => exact absurd hxl (by simp)
        | some y => rfl
    · rw [if_neg (by simpa using hd)]
      cases hfl : rest.filter fun d => decide (fragmentOf (nameOf d) = some k) with
      | nil =>
        simp only [List.getLast?_nil, Option.elim]
        cases hfr : fragmentOf (nameOf d) with
        | none => rfl
        | some key =>
          rw [dictFind_insert]
          have hne : key ≠ k := fun he => hd (by rw [hfr, he])
          simp [hne]
      | cons x xs =>
        cases hxl : (x :: xs).getLast? with
        | none => exact absurd hxl (by simp)
        | some y => rfl

theorem dictFind_build {α : Type} (nameOf : α → String) (folders : List α)
    (k : String) :
    dictFind k (_build_folder_lookup nameOf folders) =
      (folders.filter fun d => decide (fragmentOf (nameOf d) = some k)).getLast? := by
  unfold _build_folder_lookup
  rw [build_lookup_go]
  cases (folders.filter fun d => decide (fragmentOf (nameOf d) = some k)).getLast? <;> rfl

theorem find?_first {β : Type} (p : β → Bool) :
    ∀ (pre : List β) (e : β) (post : List β),
      (∀ x ∈ pre, p x = false) → p e = true →
      (pre ++ e :: post).find? p = some e := by
  intro pre
  induction pre with
  | nil => intro e post _ he; simp [List.find?_cons_of_pos _ he]
  | cons a rest ih =>
    intro e post hpre he
    have ha : p a = false := hpre a (List.mem_cons_self _ _)
    rw [List.cons_append, List.find?_cons_of_neg _ (by simp [ha])]
    exact ih e post (fun x hx => hpre x (List.mem_cons_of_mem _ hx)) he

/-- Claim C2: the folder index maps each fragment (second raw-hyphen
segment, trimmed and lowercased; short names excluded) to the
last-enumerated directory carrying it; matching tries an exact key lookup
of the lowercased address first, then the first entry in insertion order
in symmetric substring containment, and returns `none` exactly when no
entry stands in either containment relation. -/
theorem c2_folder_matching (dirs : List String) (address : String) :
    (∀ k : String, dictFind k (_build_folder_lookup id dirs) =
      (dirs.filter fun d => decide (fragmentOf d = some k)).getLast?) ∧
    (∀ v, dictFind (pyLower address) (_build_folder_lookup id dirs) = some v →
      _find_matching_folder_from_lookup address (_build_folder_lookup id dirs) =
        some v) ∧
    (dictFind (pyLower address) (_build_folder_lookup id dirs) = none →
      ∀ pre e post, _build_folder_lookup id dirs = pre ++ e :: post →
        (∀ x ∈ pre, matchesFragment (pyLower address) x = false) →
        matchesFragment (pyLower address) e = true →
        _find_matching_folder_from_lookup address (_build_folder_lookup id dirs) =
          some e.2) ∧
    (_find_matching_folder_from_lookup address (_build_folder_lookup id dirs) =
        none ↔
      ∀ x ∈ _build_folder_lookup id dirs,
        matchesFragment (pyLower address) x = false) := by
  refine ⟨fun k => dictFind_build id dirs k, ?_, ?_, ?_⟩
  · intro v hv
    unfold _find_matching_folder_from_lookup
    rw [hv]
  · intro hnone pre e post hsplit hpre he
    unfold _find_matching_folder_from_lookup
    rw [hnone, hsplit, find?_first _ pre e post hpre he]
  · constructor
    · intro hres x hx
      unfold _find_matching_folder_from_lookup at hres
      cases hd : dictFind (pyLower address) (_build_folder_lookup id dirs) with
      | some v => rw [hd] at hres; exact Option.noConfusion hres
      | none =>
        rw [hd] at hres
        cases hf : (_build_folder_lookup id dirs).find?
            (matchesFragment (pyLower address)) with
        | some e => rw [hf] at hres; exact Option.noConfusion hres
        | none =>
          have := List.find?_eq_none.mp hf x hx
          exact Bool.eq_false_iff.mpr this
    · intro hall
      unfold _find_matching_folder_from_lookup
      have hd : dictFind (pyLower address) (_build_folder_lookup id dirs) = none := by
        cases hd : dictFind (pyLower address) (_build_folder_lookup id dirs) with
        | none => rfl
        | some v =>
          exfalso
          have hmem := dictFind_mem hd
          have := hall _ hmem
          unfold matchesFragment at this
          rw [pyContainsSub_self] at this
          simp at this
      rw [hd]
      have hf : (_build_folder_lookup id dirs).find?
          (matchesFragment (pyLower address)) = none :=
        List.find?_eq_none.mpr fun x hx => by simp [hall x hx]
      rw [hf]

theorem c2_folder_matching_witness :
    _find_matching_folder_from_lookup "123 Main St"
        (_build_folder_lookup id
          ["1001 - 123 Main St - Office Building",
            "1002 - 456 Oak Ave - Apartment Complex"]) =
      some "1001 - 123 Main St - Office Building" ∧
    _find_matching_folder_from_lookup "456 Oak"
        (_build_folder_lookup id
          ["1001 - 123 Main St - Office Building",
            "1002 - 456 Oak Ave - Apartment Complex"]) =
      some "1002 - 456 Oak Ave - Apartment Complex" ∧
    _find_matching_folder_from_lookup "789 Pine Rd"
        (_build_folder_lookup id
          ["1001 - 123 Main St - Office Building",
            "1002 - 456 Oak Ave - Apartment Complex"]) = none := by
  refine ⟨(c2_folder_matching
      ["1001 - 123 Main St - Office Building",
        "1002 - 456 Oak Ave - Apartment Complex"] "123 Main St").2.1
      "1001 - 123 Main St - Office Building" (by decide),
    (c2_folder_matching
      ["1001 - 123 Main St - Office Building",
        "1002 - 456 Oak Ave - Apartment Complex"] "456 Oak").2.2.1 (by decide)
      [("123 main st", "1001 - 123 Main St - Office Building")]
      ("456 oak ave", "1002 - 456 Oak Ave - Apartment Complex") [] (by decide)
      (by decide) (by decide),
    ((c2_folder_matching
      ["1001 - 123 Main St - Office Building",
        "1002 - 456 Oak Ave - Apartment Complex"] "789 Pine Rd").2.2.2).mpr
      (by decide)⟩

/-- Claim C10: if some destination directory's second hyphen segment trims
to the empty string, the built lookup contains the empty fragment, which is
a substring of every lowercased address, so matching never returns
`none`. -/
theorem c10_empty_fragment_always_matches (dirs : List String) (d : String)
    (address : String) (hd : d ∈ dirs) (hfrag : fragmentOf d = some "") :
    _find_matching_folder_from_lookup address (_build_folder_lookup id dirs) ≠
      none := by
  intro hres
  have hall := (c2_folder_matching dirs address).2.2.2.mp hres
  have hfind := dictFind_build id dirs ""
  simp only [id_eq] at hfind
  have hmem : d ∈ dirs.filter fun x => decide (fragmentOf x = some "") := by
    rw [List.mem_filter]
    exact ⟨hd, by simp [hfrag]⟩
  have hne : (dirs.filter fun x => decide (fragmentOf x = some "")) ≠ [] :=
    List.ne_nil_of_mem hmem
  obtain ⟨v, hv⟩ := Option.ne_none_iff_exists.mp
    (mt List.getLast?_eq_none_iff.mp hne)
  rw [← hv] at hfind
  have hentry := dictFind_mem hfind
  have := hall _ hentry
  unfold matchesFragment at this
  have hempty : pyContainsSub (pyLower address).data (("" : String)).data = true :=
    pyContainsSub_nil _
  rw [hempty] at this
  simp at this

theorem c10_empty_fragment_always_matches_witness :
    _find_matching_folder_from_lookup "xyz" (_build_folder_lookup id ["A- -B"]) ≠
      none :=
  c10_empty_fragment_always_matches ["A- -B"] "A- -B" "xyz" (by decide) (by decide)

theorem dateShapeAtStart_append (s r : String) (h : dateShapeAtStart s = true) :
    dateShapeAtStart (s ++ r) = true := by
  have hd : (s ++ r).data = s.data ++ r.data := by
    cases s; cases r; rfl
  unfold dateShapeAtStart at h ⊢
  rw [hd]
  split at h
  next y1 y2 y3 y4 s1 m1 m2 s2 d1 d2 rest heq =>
    rw [heq]
    simpa using h
  next => exact absurd h (by simp)

/-- Claim C6: `ensure_date_in_filename` leaves a filename with a loosely
date-shaped start unchanged, otherwise prepends `today ++ " - "`, and is
idempotent (the `today` string produced by `strftime("%Y-%m-%d")` is itself
loosely date-shaped). -/
theorem c6_ensure_date_idempotent (today f : String)
    (htoday : dateShapeAtStart today = true) :
    ensure_date_in_filename today (ensure_date_in_filename today f) =
      ensure_date_in_filename today f ∧
    (dateShapeAtStart f = true → ensure_date_in_filename today f = f) ∧
    (dateShapeAtStart f = false →
      ensure_date_in_filename today f = today ++ " - " ++ f) := by
  refine ⟨?_, fun hf => by simp [ensure_date_in_filename, hf],
    fun hf => by simp [ensure_date_in_filename, hf]⟩
  by_cases hf : dateShapeAtStart f = true
  · simp [ensure_date_in_filename, hf]
  · have h1 : ensure_date_in_filename today f = today ++ " - " ++ f := by
      simp [ensure_date_in_filename, hf]
    have h2 : dateShapeAtStart (today ++ " - " ++ f) = true := by
      have h3 := dateShapeAtStart_append today (" - " ++ f) htoday
      rwa [← String.append_assoc] at h3
    rw [h1]
    simp [ensure_date_in_filename, h2]

theorem c6_ensure_date_idempotent_witness :
    ensure_date_in_filename "2026-10-12"
        (ensure_date_in_filename "2026-10-12" "Document.pdf") =
      ensure_date_in_filename "2026-10-12" "Document.pdf" ∧
    ensure_date_in_filename "2026-10-12" "Document.pdf" =
      "2026-10-12" ++ " - " ++ "Document.pdf" :=
  ⟨(c6_ensure_date_idempotent "2026-10-12" "Document.pdf" (by decide)).1,
    (c6_ensure_date_idempotent "2026-10-12" "Document.pdf" (by decide)).2.2
      (by decide)⟩

theorem string_data_inj {s t : String} (h : s.data = t.data) : s = t := by
  cases s; cases t; exact congrArg String.mk h

theorem decChars_lt_ten {n : Nat} (h : n < 10) :
    decChars n = [Nat.digitChar n] := by
  by_cases h0 : n = 0
  · subst h0; rfl
  · unfold decChars
    rw [if_neg h0]
    rw [Nat.digits_def' (by norm_num) (Nat.pos_of_ne_zero h0)]
    rw [Nat.div_eq_of_lt h, Nat.digits_zero, Nat.mod_eq_of_lt h]
    rfl

theorem decChars_step {n : Nat} (h : n / 10 ≠ 0) :
    decChars n = decChars (n / 10) ++ [Nat.digitChar (n % 10)] := by
  have h0 : n ≠ 0 := by
    intro h0
    subst h0
    simp at h
  unfold decChars
  rw [if_neg h0, if_neg h]
  rw [Nat.digits_def' (by norm_num) (Nat.pos_of_ne_zero h0)]
  simp

theorem toDigitsCore_eq_decChars :
    ∀ (fuel n : Nat) (acc : List Char), n < 10 ^ (fuel + 1) →
      Nat.toDigitsCore 10 (fuel + 1) n acc = decChars n ++ acc := by
  intro fuel
  induction fuel with
  | zero =>
    intro n acc h
    rw [pow_one] at h
    have hdiv : n / 10 = 0 := Nat.div_eq_of_lt h
    have hstep : Nat.toDigitsCore 10 1 n acc = Nat.digitChar (n % 10) :: acc := by
      unfold Nat.toDigitsCore
      rw [hdiv]
      simp
    rw [hstep, Nat.mod_eq_of_lt h, decChars_lt_ten h]
    rfl
  | succ f ih =>
    intro n acc h
    by_cases hdiv : n / 10 = 0
    · have hn : n < 10 := by
        by_contra hge
        push_neg at hge
        have : 0 < n / 10 := Nat.div_pos hge (by norm_num)
        omega
      have hstep : Nat.toDigitsCore 10 (f + 1 + 1) n acc =
          Nat.digitChar (n % 10) :: acc := by
        unfold Nat.toDigitsCore
        rw [hdiv]
        simp
      rw [hstep, Nat.mod_eq_of_lt hn, decChars_lt_ten hn]
      rfl
    · have hlt : n / 10 < 10 ^ (f + 1) := by
        rw [Nat.div_lt_iff_lt_mul (by norm_num)]
        calc n < 10 ^ (f + 2) := h
        _ = 10 ^ (f + 1) * 10 := by ring
      unfold Nat.toDigitsCore
      rw [if_neg hdiv]
      rw [ih (n / 10) (Nat.digitChar (n % 10) :: acc) hlt]
      rw [decChars_step hdiv]
      simp

theorem repr_eq_decChars (n : Nat) : Nat.repr n = String.mk (decChars n) := by
  have h : n < 10 ^ (n + 1) := by
    calc n < 10 ^ n := Nat.lt_pow_self (by norm_num) n
    _ ≤ 10 ^ (n + 1) := Nat.pow_le_pow_right (by norm_num) (Nat.le_succ n)
  show (Nat.toDigits 10 n).asString = _
  unfold Nat.toDigits
  rw [toDigitsCore_eq_decChars n n [] h, List.append_nil]
  rfl

theorem map_digitChar_inj :
    ∀ (l1 l2 : List Nat), (∀ x ∈ l1, x < 10) → (∀ x ∈ l2, x < 10) →
      l1.map Nat.digitChar = l2.map Nat.digitChar → l1 = l2 := by
  intro l1
  induction l1 with
  | nil =>
    intro l2 _ _ h
    cases l2 with
    | nil => rfl
    | cons b bs => exact absurd h (by simp)
  | cons a as ih =>
    intro l2 h1 h2 h
    cases l2 with
    | nil => exact absurd h (by simp)
    | cons b bs =>
      simp only [List.map_cons, List.cons.injEq] at h
      have ha : a < 10 := h1 a (List.mem_cons_self _ _)
      have hb : b < 10 := h2 b (List.mem_cons_self _ _)
      have hab : a = b := by
        have hd : ∀ x < 10, ∀ y < 10,
            Nat.digitChar x = Nat.digitChar y → x = y := by decide
        exact hd a ha b hb h.1
      rw [hab, ih bs (fun x hx => h1 x (List.mem_cons_of_mem _ hx))
        (fun x hx => h2 x (List.mem_cons_of_mem _ hx)) h.2]

theorem decChars_inj {m n : Nat} (h : decChars m = decChars n) : m = n := by
  have key : ∀ k : Nat, k ≠ 0 →
      decChars k = ((Nat.digits 10 k).map Nat.digitChar).reverse := by
    intro k hk
    unfold decChars
    rw [if_neg hk]
  by_cases hm : m = 0 <;> by_cases hn : n = 0
  · rw [hm, hn]
  · exfalso
    rw [hm, key n hn] at h
    have h0 : decChars 0 = ['0'] := rfl
    rw [h0] at h
    have hrev : (Nat.digits 10 n).map Nat.digitChar = ['0'] := by
      have := congrArg List.reverse h
      simpa using this.symm
    have hdig : Nat.digits 10 n = [0] := by
      apply map_digitChar_inj _ [0]
        (fun x hx => Nat.digits_lt_base (by norm_num) hx) (by simp)
      simpa using hrev
    have := Nat.ofDigits_digits 10 n
    rw [hdig] at this
    simp [Nat.ofDigits] at this
    exact hn this.symm
  · exfalso
    rw [hn, key m hm] at h
    have h0 : decChars 0 = ['0'] := rfl
    rw [h0] at h
    have hrev : (Nat.digits 10 m).map Nat.digitChar = ['0'] := by
      have := congrArg List.reverse h
      simpa using this
    have hdig : Nat.digits 10 m = [0] := by
      apply map_digitChar_inj _ [0]
        (fun x hx => Nat.digits_lt_base (by norm_num) hx) (by simp)
      simpa using hrev
    have := Nat.ofDigits_digits 10 m
    rw [hdig] at this
    simp [Nat.ofDigits] at this
    exact hm this.symm
  · rw [key m hm, key n hn] at h
    have hmap : (Nat.digits 10 m).map Nat.digitChar =
        (Nat.digits 10 n).map Nat.digitChar := by
      have := congrArg List.reverse h
      simpa using this
    have hdig : Nat.digits 10 m = Nat.digits 10 n :=
      map_digitChar_inj _ _ (fun x hx => Nat.digits_lt_base (by norm_num) hx)
        (fun x hx => Nat.digits_lt_base (by norm_num) hx) hmap
    have h1 := Nat.ofDigits_digits 10 m
    have h2 := Nat.ofDigits_digits 10 n
    rw [← h1, ← h2, hdig]

theorem nat_repr_inj {m n : Nat} (h : Nat.repr m = Nat.repr n) : m = n := by
  rw [repr_eq_decChars, repr_eq_decChars] at h
  exact decChars_inj (congrArg String.data h)

theorem dupCandidate_inj (p : FsPath) {a b : Nat}
    (h : dupCandidate p a = dupCandidate p b) : a = b := by
  unfold dupCandidate at h
  have hname : pathStem p.name ++ "_" ++ Nat.repr a ++ pathSuffix p.name =
      pathStem p.name ++ "_" ++ Nat.repr b ++ pathSuffix p.name := by
    have := congrArg FsPath.name h
    simpa using this
  have hdata := congrArg String.data hname
  simp only [data_append] at hdata
  have h1 := List.append_cancel_right hdata
  have h2 := List.append_cancel_left h1
  exact nat_repr_inj (string_data_inj h2)

theorem exists_free_counter (files : List FsPath) (p : FsPath) (c : Nat) :
    ∃ k, k < files.length + 1 ∧ dupCandidate p (c + k) ∉ files := by
  by_contra hcon
  push_neg at hcon
  have hall : ∀ k < files.length + 1, dupCandidate p (c + k) ∈ files := fun k hk =>
    hcon k hk
  have hinj : Function.Injective (fun k : Nat => dupCandidate p (c + k)) := by
    intro x y hxy
    have := dupCandidate_inj p hxy
    omega
  have hnd : ((List.range (files.length + 1)).map
      (fun k => dupCandidate p (c + k))).Nodup :=
    (List.nodup_range _).map hinj
  have hsub : ((List.range (files.length + 1)).map
      (fun k => dupCandidate p (c + k))).toFinset ⊆ files.toFinset := by
    intro x hx
    rw [List.mem_toFinset, List.mem_map] at hx
    obtain ⟨k, hk, rfl⟩ := hx
    rw [List.mem_toFinset]
    exact hall k (List.mem_range.mp hk)
  have hcard1 : ((List.range (files.length + 1)).map
      (fun k => dupCandidate p (c + k))).toFinset.card = files.length + 1 := by
    rw [List.toFinset_card_of_nodup hnd]
    simp
  have hcard2 := Finset.card_le_card hsub
  rw [hcard1] at hcard2
  have := List.toFinset_card_le files
  omega

theorem findFreeCounter_spec (files : List FsPath) (p : FsPath) :
    ∀ (fuel c : Nat),
      (∃ k, k < fuel ∧ dupCandidate p (c + k) ∉ files) →
      c ≤ findFreeCounter files p fuel c ∧
      dupCandidate p (findFreeCounter files p fuel c) ∉ files ∧
      ∀ j, c ≤ j → j < findFreeCounter files p fuel c →
        dupCandidate p j ∈ files := by
  intro fuel
  induction fuel with
  | zero =>
    intro c h
    obtain ⟨k, hk, _⟩ := h
    omega
  | succ f ih =>
    intro c h
    by_cases hc : dupCandidate p c ∈ files
    · have hnext : ∃ k, k < f ∧ dupCandidate p (c + 1 + k) ∉ files := by
        obtain ⟨k, hk, hfree⟩ := h
        cases k with
        | zero => exact absurd hc (by simpa using hfree)
        | succ k' =>
          exact ⟨k', by omega, by
            have : c + 1 + k' = c + (k' + 1) := by omega
            rw [this]; exact hfree⟩
      have hr := ih (c + 1) hnext
      have hres : findFreeCounter files p (f + 1) c =
          findFreeCounter files p f (c + 1) := by
        conv_lhs => rw [findFreeCounter]
        rw [if_pos hc]
      rw [hres]
      refine ⟨by omega, hr.2.1, fun j hj1 hj2 => ?_⟩
      by_cases hjc : j = c
      · rw [hjc]; exact hc
      · exact hr.2.2 j (by omega) hj2
    · have hres : findFreeCounter files p (f + 1) c = c := by
        unfold findFreeCounter
        rw [if_neg hc]
      rw [hres]
      exact ⟨Nat.le_refl c, hc, fun j hj1 hj2 => absurd (Nat.lt_of_le_of_lt hj1 hj2)
        (Nat.lt_irrefl c)⟩

/-- Claim C3: `handle_duplicate_file` returns its argument unchanged when
no file exists at it; otherwise it returns the `<stem>_<counter><ext>`
sibling for the smallest counter at least 1 whose candidate is free.  In
both cases the returned path refers to no existing file, so nothing is
overwritten. -/
theorem c3_handle_duplicate (files : List FsPath) (p : FsPath) :
    handle_duplicate_file files p ∉ files ∧
    (p ∉ files → handle_duplicate_file files p = p) ∧
    (p ∈ files →
      ∃ c, 1 ≤ c ∧ handle_duplicate_file files p = dupCandidate p c ∧
        dupCandidate p c ∉ files ∧
        ∀ j, 1 ≤ j → j < c → dupCandidate p j ∈ files) := by
  by_cases hp : p ∈ files
  · obtain ⟨k, hk, hfree⟩ := exists_free_counter files p 1
    have hspec := findFreeCounter_spec files p (files.length + 1) 1 ⟨k, hk, hfree⟩
    have hres : handle_duplicate_file files p =
        dupCandidate p (findFreeCounter files p (files.length + 1) 1) := by
      unfold handle_duplicate_file
      rw [if_pos hp]
    refine ⟨by rw [hres]; exact hspec.2.1, fun h => absurd hp h, fun _ => ?_⟩
    exact ⟨findFreeCounter files p (files.length + 1) 1, hspec.1, hres,
      hspec.2.1, fun j h1 h2 => hspec.2.2 j h1 h2⟩
  · have hres : handle_duplicate_file files p = p := by
      unfold handle_duplicate_file
      rw [if_neg hp]
    exact ⟨by rw [hres]; exact hp, fun _ => hres, fun h => absurd h hp⟩

theorem mkdir_files (fs : FS) (d : DirPath) : (mkdir fs d).files = fs.files := by
  unfold mkdir
  split <;> rfl

theorem mkdir_mem (fs : FS) (d : DirPath) : d ∈ (mkdir fs d).dirs := by
  unfold mkdir
  split
  next h => exact h
  next => exact List.mem_cons_self _ _

theorem mkdir_mono {fs : FS} {x : DirPath} (h : x ∈ fs.dirs) (d : DirPath) :
    x ∈ (mkdir fs d).dirs := by
  unfold mkdir
  split
  next => exact h
  next => exact List.mem_cons_of_mem _ h

theorem mkdir_of_mem {fs : FS} {d : DirPath} (h : d ∈ fs.dirs) : mkdir fs d = fs := by
  unfold mkdir
  rw [if_pos h]

theorem handle_duplicate_dir (files : List FsPath) (p : FsPath) :
    (handle_duplicate_file files p).dir = p.dir := by
  unfold handle_duplicate_file
  split <;> rfl

theorem finishMove_moved {today : String} {att : Nat → MoveRes} {fs1 : FS}
    {dest : DirPath} {f : FsPath} {fs' : FS} {d : FsPath} {a s : Nat}
    (h : finishMove today att fs1 dest f = (fs', .moved d a s)) :
    d = handle_duplicate_file fs1.files
        ⟨dest, ensure_date_in_filename today f.name⟩ ∧
    fs' = doMove fs1 f d ∧
    ((att 0 = .success ∧ a = 1 ∧ s = 0) ∨
      (att 0 = .permErr ∧ att 1 = .success ∧ a = 2 ∧ s = 1)) := by
  unfold finishMove at h
  cases h0 : att 0 with
  | success =>
    rw [h0] at h
    simp only [Prod.mk.injEq, MoveOutcome.moved.injEq] at h
    obtain ⟨h1, h2, h3, h4⟩ := h
    exact ⟨h2.symm, by rw [← h1, h2], Or.inl ⟨rfl, h3.symm, h4.symm⟩⟩
  | otherErr =>
    rw [h0] at h
    simp at h
  | permErr =>
    rw [h0] at h
    cases h1 : att 1 with
    | success =>
      rw [h1] at h
      simp only [Prod.mk.injEq, MoveOutcome.moved.injEq] at h
      obtain ⟨ha, hb, hc, hd⟩ := h
      exact ⟨hb.symm, by rw [← ha, hb], Or.inr ⟨rfl, rfl, hc.symm, hd.symm⟩⟩
    | permErr => rw [h1] at h; simp at h
    | otherErr => rw [h1] at h; simp at h

theorem finishMove_failed {today : String} {att : Nat → MoveRes} {fs1 : FS}
    {dest : DirPath} {f : FsPath} {fs' : FS} {d : FsPath} {a s : Nat}
    (h : finishMove today att fs1 dest f = (fs', .moveFailed d a s)) :
    fs' = fs1 ∧
    ((att 0 = .otherErr ∧ a = 1 ∧ s = 0) ∨
      (att 0 = .permErr ∧ att 1 ≠ .success ∧ a = 2 ∧ s = 1)) := by
  unfold finishMove at h
  cases h0 : att 0 with
  | success => rw [h0] at h; simp at h
  | otherErr =>
    rw [h0] at h
    simp only [Prod.mk.injEq, MoveOutcome.moveFailed.injEq] at h
    exact ⟨h.1.symm, Or.inl ⟨rfl, h.2.2.1.symm, h.2.2.2.symm⟩⟩
  | permErr =>
    rw [h0] at h
    cases h1 : att 1 with
    | success => rw [h1] at h; simp at h
    | permErr =>
      rw [h1] at h
      simp only [Prod.mk.injEq, MoveOutcome.moveFailed.injEq] at h
      exact ⟨h.1.symm, Or.inr ⟨rfl, fun hc => MoveRes.noConfusion hc,
        h.2.2.1.symm, h.2.2.2.symm⟩⟩
    | otherErr =>
      rw [h1] at h
      simp only [Prod.mk.injEq, MoveOutcome.moveFailed.injEq] at h
      exact ⟨h.1.symm, Or.inr ⟨rfl, fun hc => MoveRes.noConfusion hc,
        h.2.2.1.symm, h.2.2.2.symm⟩⟩

theorem finishMove_dirs {today : String} {att : Nat → MoveRes} {fs1 : FS}
    {dest : DirPath} {f : FsPath} :
    ((finishMove today att fs1 dest f).1).dirs = fs1.dirs := by
  unfold finishMove
  cases att 0 with
  | success => rfl
  | otherErr => rfl
  | permErr =>
    cases att 1 with
    | success => rfl
    | permErr => rfl
    | otherErr => rfl

theorem c3_handle_duplicate_witness :
    handle_duplicate_file
        [⟨["a"], "name.pdf"⟩, ⟨["a"], "name_1.pdf"⟩] ⟨["a"], "name.pdf"⟩ ∉
      [(⟨["a"], "name.pdf"⟩ : FsPath), ⟨["a"], "name_1.pdf"⟩] ∧
    handle_duplicate_file [] (⟨["a"], "fresh.pdf"⟩ : FsPath) =
      ⟨["a"], "fresh.pdf"⟩ :=
  ⟨(c3_handle_duplicate [⟨["a"], "name.pdf"⟩, ⟨["a"], "name_1.pdf"⟩]
      ⟨["a"], "name.pdf"⟩).1,
    (c3_handle_duplicate [] ⟨["a"], "fresh.pdf"⟩).2.1 (by decide)⟩

theorem doMove_dirs (fs : FS) (src dst : FsPath) :
    (doMove fs src dst).dirs = fs.dirs := rfl

/-- Claim C4: a moved file whose original name contains `Banks Fee Letter`
case-insensitively lands in `<matched folder>/Contracts`; any other moved
file lands in `<matched folder>/Correspondence/<today>`; the needed
subfolders exist in the resulting state, and `mkdir` is a no-op (not an
error) on an existing directory. -/
theorem c4_subfolder_routing :
    (∀ (today : String) (att : Nat → MoveRes) (lookup : List (String × DirPath))
        (fs : FS) (f : FsPath) (fs' : FS) (d : FsPath) (a s : Nat),
      move_file today att lookup fs f = (fs', .moved d a s) →
      ∃ address folder,
        extract_address f.name = some address ∧
        _find_matching_folder_from_lookup address lookup = some folder ∧
        ((pyContainsSub (pyLower f.name).data (pyLower "Banks Fee Letter").data =
            true ∧
          d.dir = folder ++ ["Contracts"] ∧ d.dir ∈ fs'.dirs) ∨
        (pyContainsSub (pyLower f.name).data (pyLower "Banks Fee Letter").data =
            false ∧
          d.dir = folder ++ ["Correspondence", today] ∧
          folder ++ ["Correspondence"] ∈ fs'.dirs ∧ d.dir ∈ fs'.dirs))) ∧
    (∀ (fs : FS) (dir : DirPath), dir ∈ fs.dirs → mkdir fs dir = fs) := by
  refine ⟨?_, fun fs dir h => mkdir_of_mem h⟩
  intro today att lookup fs f fs' d a s h
  unfold move_file at h
  split at h
  · split at h
    next hext => simp at h
    next address hext =>
      split at h
      next hfind => simp at h
      next folder hfind =>
        split at h
        next hb =>
          obtain ⟨hd, hfs, _⟩ := finishMove_moved h
          have hdir : d.dir = folder ++ ["Contracts"] := by
            rw [hd]
            exact handle_duplicate_dir _ _
          refine ⟨address, folder, hext, hfind, Or.inl ⟨hb, hdir, ?_⟩⟩
          rw [hfs, doMove_dirs, hdir]
          exact mkdir_mem fs _
        next hb =>
          obtain ⟨hd, hfs, _⟩ := finishMove_moved h
          have hdir : d.dir = folder ++ ["Correspondence", today] := by
            rw [hd]
            exact handle_duplicate_dir _ _
          refine ⟨address, folder, hext, hfind,
            Or.inr ⟨by simpa using hb, hdir, ?_, ?_⟩⟩
          · rw [hfs, doMove_dirs]
            exact mkdir_mono (mkdir_mem fs _) _
          · rw [hfs, doMove_dirs, hdir]
            exact mkdir_mem _ _
  · simp at h

/-- Claim C7: only a first-attempt `PermissionError` triggers the single
retry, preceded by the one-second wait; a first-attempt non-permission
error is never retried; a failure of the retried attempt (or an unretried
error) is caught per file, leaving the file set unchanged. -/
theorem c7_retry_once (today : String) (att : Nat → MoveRes)
    (lookup : List (String × DirPath)) (fs : FS) (f : FsPath) (fs' : FS)
    (oc : MoveOutcome) (h : move_file today att lookup fs f = (fs', oc)) :
    (∀ d a s, oc = .moved d a s →
      (att 0 = .success ∧ a = 1 ∧ s = 0) ∨
      (att 0 = .permErr ∧ att 1 = .success ∧ a = 2 ∧ s = 1)) ∧
    (∀ d a s, oc = .moveFailed d a s →
      fs'.files = fs.files ∧
      ((att 0 = .otherErr ∧ a = 1 ∧ s = 0) ∨
        (att 0 = .permErr ∧ att 1 ≠ .success ∧ a = 2 ∧ s = 1))) := by
  unfold move_file at h
  split at h
  · split at h
    next hext =>
      have hoc : oc = .noAddress := by
        have := congrArg Prod.snd h
        simpa using this.symm
      exact ⟨fun d a s he => absurd (hoc ▸ he) (by simp),
        fun d a s he => absurd (hoc ▸ he) (by simp)⟩
    next address hext =>
      split at h
      next hfind =>
        have hoc : oc = .noFolder := by
          have := congrArg Prod.snd h
          simpa using this.symm
        exact ⟨fun d a s he => absurd (hoc ▸ he) (by simp),
          fun d a s he => absurd (hoc ▸ he) (by simp)⟩
      next folder hfind =>
        split at h
        next hb =>
          constructor
          · intro d a s he
            subst he
            exact (finishMove_moved h).2.2
          · intro d a s he
            subst he
            obtain ⟨hfs, hcase⟩ := finishMove_failed h
            refine ⟨?_, hcase⟩
            rw [hfs, mkdir_files]
        next hb =>
          constructor
          · intro d a s he
            subst he
            exact (finishMove_moved h).2.2
          · intro d a s he
            subst he
            obtain ⟨hfs, hcase⟩ := finishMove_failed h
            refine ⟨?_, hcase⟩
            rw [hfs, mkdir_files, mkdir_files]
  · have hoc : oc = .srcMissing := by
      have := congrArg Prod.snd h
      simpa using this.symm
    exact ⟨fun d a s he => absurd (hoc ▸ he) (by simp),
      fun d a s he => absurd (hoc ▸ he) (by simp)⟩

theorem c4_subfolder_routing_witness :
    ∃ address folder,
      extract_address "123 Main St - Banks Fee Letter.pdf" = some address ∧
      _find_matching_folder_from_lookup address
          [("123 main st", ["dest", "1001 - 123 Main St - Office Building"])] =
        some folder ∧
      ((pyContainsSub (pyLower "123 Main St - Banks Fee Letter.pdf").data
          (pyLower "Banks Fee Letter").data = true ∧
        (["dest", "1001 - 123 Main St - Office Building", "Contracts"] : DirPath) =
          folder ++ ["Contracts"] ∧
        (["dest", "1001 - 123 Main St - Office Building", "Contracts"] : DirPath) ∈
          [["dest", "1001 - 123 Main St - Office Building", "Contracts"],
            ["source"], ["dest"],
            ["dest", "1001 - 123 Main St - Office Building"]]) ∨
      (pyContainsSub (pyLower "123 Main St - Banks Fee Letter.pdf").data
          (pyLower "Banks Fee Letter").data = false ∧
        (["dest", "1001 - 123 Main St - Office Building", "Contracts"] : DirPath) =
          folder ++ ["Correspondence", "2026-10-12"] ∧
        folder ++ ["Correspondence"] ∈
          [["dest", "1001 - 123 Main St - Office Building", "Contracts"],
            ["source"], ["dest"],
            ["dest", "1001 - 123 Main St - Office Building"]] ∧
        (["dest", "1001 - 123 Main St - Office Building", "Contracts"] : DirPath) ∈
          [["dest", "1001 - 123 Main St - Office Building", "Contracts"],
            ["source"], ["dest"],
            ["dest", "1001 - 123 Main St - Office Building"]])) :=
  c4_subfolder_routing.1 "2026-10-12" (fun _ => .success)
    [("123 main st", ["dest", "1001 - 123 Main St - Office Building"])]
    ⟨[⟨["source"], "123 Main St - Banks Fee Letter.pdf"⟩],
      [["source"], ["dest"], ["dest", "1001 - 123 Main St - Office Building"]]⟩
    ⟨["source"], "123 Main St - Banks Fee Letter.pdf"⟩
    ⟨[⟨["dest", "1001 - 123 Main St - Office Building", "Contracts"],
        "2026-10-12 - 123 Main St - Banks Fee Letter.pdf"⟩],
      [["dest", "1001 - 123 Main St - Office Building", "Contracts"],
        ["source"], ["dest"],
        ["dest", "1001 - 123 Main St - Office Building"]]⟩
    ⟨["dest", "1001 - 123 Main St - Office Building", "Contracts"],
      "2026-10-12 - 123 Main St - Banks Fee Letter.pdf"⟩
    1 0 (by decide)

theorem c7_retry_once_witness :
    ((fun n : Nat => if n = 0 then MoveRes.permErr else MoveRes.success) 0 =
        MoveRes.success ∧ (2 : Nat) = 1 ∧ (1 : Nat) = 0) ∨
    ((fun n : Nat => if n = 0 then MoveRes.permErr else MoveRes.success) 0 =
        MoveRes.permErr ∧
      (fun n : Nat => if n = 0 then MoveRes.permErr else MoveRes.success) 1 =
        MoveRes.success ∧ (2 : Nat) = 2 ∧ (1 : Nat) = 1) :=
  (c7_retry_once "2026-10-12"
    (fun n => if n = 0 then MoveRes.permErr else MoveRes.success)
    [("123 main st", ["dest", "1001 - 123 Main St - Office Building"])]
    ⟨[⟨["source"], "123 Main St - Report.pdf"⟩], [["source"]]⟩
    ⟨["source"], "123 Main St - Report.pdf"⟩
    ⟨[⟨["dest", "1001 - 123 Main St - Office Building", "Correspondence",
          "2026-10-12"], "2026-10-12 - 123 Main St - Report.pdf"⟩],
      [["dest", "1001 - 123 Main St - Office Building", "Correspondence",
          "2026-10-12"],
        ["dest", "1001 - 123 Main St - Office Building", "Correspondence"],
        ["source"]]⟩
    (.moved
      ⟨["dest", "1001 - 123 Main St - Office Building", "Correspondence",
          "2026-10-12"], "2026-10-12 - 123 Main St - Report.pdf"⟩ 2 1)
    (by decide)).1
    ⟨["dest", "1001 - 123 Main St - Office Building", "Correspondence",
        "2026-10-12"], "2026-10-12 - 123 Main St - Report.pdf"⟩ 2 1 rfl

theorem fileFails_spec (att : Nat → MoveRes) (lookup : List (String × DirPath))
    (name : String) (h : fileFails att lookup name = true) :
    extract_address name = none ∨
    (∃ address, extract_address name = some address ∧
      _find_matching_folder_from_lookup address lookup = none) ∨
    att 0 = .otherErr ∨ (att 0 = .permErr ∧ att 1 ≠ .success) := by
  unfold fileFails at h
  split at h
  next hext => exact Or.inl hext
  next address hext =>
    split at h
    next hfind => exact Or.inr (Or.inl ⟨address, hext, hfind⟩)
    next folder hfind =>
      split at h
      next h0 => exact absurd h (by simp)
      next h0 => exact Or.inr (Or.inr (Or.inl h0))
      next h0 =>
        cases h1 : att 1 with
        | success => rw [h1] at h; simp at h
        | permErr =>
          exact Or.inr (Or.inr (Or.inr ⟨h0, fun hc => MoveRes.noConfusion hc⟩))
        | otherErr =>
          exact Or.inr (Or.inr (Or.inr ⟨h0, fun hc => MoveRes.noConfusion hc⟩))

theorem finishMove_files_fail {today : String} {att : Nat → MoveRes} {fs1 : FS}
    {dest : DirPath} {f : FsPath}
    (h : att 0 = MoveRes.otherErr ∨
      (att 0 = MoveRes.permErr ∧ att 1 ≠ MoveRes.success)) :
    ((finishMove today att fs1 dest f).1).files = fs1.files := by
  unfold finishMove
  rcases h with h0 | ⟨h0, h1⟩
  · rw [h0]
  · rw [h0]
    cases ha : att 1 with
    | success => exact absurd ha h1
    | permErr => rfl
    | otherErr => rfl

theorem finishMove_preserves {today : String} {att : Nat → MoveRes} {fs1 : FS}
    {dest : DirPath} {f g : FsPath} (hg : g ∈ fs1.files) (hne : g ≠ f) :
    g ∈ ((finishMove today att fs1 dest f).1).files := by
  unfold finishMove
  cases att 0 with
  | success =>
    exact List.mem_cons_of_mem _ ((List.mem_erase_of_ne hne).mpr hg)
  | otherErr => exact hg
  | permErr =>
    cases att 1 with
    | success => exact List.mem_cons_of_mem _ ((List.mem_erase_of_ne hne).mpr hg)
    | permErr => exact hg
    | otherErr => exact hg

theorem move_file_files_unchanged (today : String) (att : Nat → MoveRes)
    (lookup : List (String × DirPath)) (fs : FS) (f : FsPath)
    (hfail : fileFails att lookup f.name = true) :
    ((move_file today att lookup fs f).1).files = fs.files := by
  have hspec := fileFails_spec att lookup f.name hfail
  unfold move_file
  split
  · split
    next hext => rfl
    next address hext =>
      split
      next hfind => rfl
      next folder hfind =>
        have hatt : att 0 = MoveRes.otherErr ∨
            (att 0 = MoveRes.permErr ∧ att 1 ≠ MoveRes.success) := by
          rcases hspec with h1 | ⟨a, ha1, ha2⟩ | h1 | h1
          · rw [hext] at h1; exact Option.noConfusion h1
          · rw [hext] at ha1
            obtain rfl := Option.some.inj ha1
            rw [hfind] at ha2
            exact Option.noConfusion ha2
          · exact Or.inl h1
          · exact Or.inr h1
        split
        · rw [finishMove_files_fail hatt, mkdir_files]
        · rw [finishMove_files_fail hatt, mkdir_files, mkdir_files]
  · rfl

theorem move_file_preserves_other (today : String) (att : Nat → MoveRes)
    (lookup : List (String × DirPath)) (fs : FS) (f g : FsPath)
    (hg : g ∈ fs.files) (hne : g ≠ f) :
    g ∈ ((move_file today att lookup fs f).1).files := by
  unfold move_file
  split
  · split
    next => exact hg
    next address hext =>
      split
      next => exact hg
      next folder hfind =>
        split
        · exact finishMove_preserves (by rw [mkdir_files]; exact hg) hne
        · exact finishMove_preserves (by rw [mkdir_files, mkdir_files]; exact hg) hne
  · exact hg

theorem process_fold_log (today : String) (att : FsPath → Nat → MoveRes)
    (lookup : List (String × DirPath)) :
    ∀ (l : List FsPath) (st : FS × List (FsPath × MoveOutcome)),
      ((l.foldl (processStep today att lookup) st).2).map Prod.fst =
        st.2.map Prod.fst ++ l := by
  intro l
  induction l with
  | nil => intro st; simp
  | cons g rest ih =>
    intro st
    rw [List.foldl_cons, ih]
    simp [processStep]

theorem process_fold_keep (today : String) (att : FsPath → Nat → MoveRes)
    (lookup : List (String × DirPath)) :
    ∀ (l : List FsPath) (st : FS × List (FsPath × MoveOutcome)) (f : FsPath),
      l.Nodup → f ∈ st.1.files →
      (f ∈ l → fileFails (att f) lookup f.name = true) →
      f ∈ ((l.foldl (processStep today att lookup) st).1).files := by
  intro l
  induction l with
  | nil => intro st f _ hf _; exact hf
  | cons g rest ih =>
    intro st f hnd hf hcond
    rw [List.foldl_cons]
    have hnd' := List.nodup_cons.mp hnd
    by_cases hgf : g = f
    · have hfmem : f ∈ g :: rest := by
        rw [hgf]
        exact List.mem_cons_self f rest
      have hfail : fileFails (att g) lookup g.name = true := by
        rw [hgf]
        exact hcond hfmem
      have hkeep : f ∈ ((processStep today att lookup st g).1).files := by
        show f ∈ ((move_file today (att g) lookup st.1 g).1).files
        rw [move_file_files_unchanged _ _ _ _ _ hfail]
        exact hf
      exact ih _ f hnd'.2 hkeep
        (fun hmem => absurd (show g ∈ rest by rw [hgf]; exact hmem) hnd'.1)
    · have hkeep : f ∈ ((processStep today att lookup st g).1).files :=
        move_file_preserves_other today (att g) lookup st.1 g f hf
          (fun he => hgf he.symm)
      exact ih _ f hnd'.2 hkeep (fun hmem => hcond (List.mem_cons_of_mem _ hmem))

/-- Claim C8: a file whose address cannot be extracted, whose address
matches no folder, or whose move fails (after the one retry) stays in the
source directory at the end of the cycle, and every snapshot entry is
processed (the log covers the whole snapshot — no per-file failure aborts
the cycle). -/
theorem c8_per_file_failure (today : String) (att : FsPath → Nat → MoveRes)
    (src dst : DirPath) (fs : FS) (hnd : fs.files.Nodup) (f : FsPath)
    (hmem : f ∈ fs.files.filter (fun x => decide (x.dir = src)))
    (hfail : fileFails (att f)
      (_build_folder_lookup dirName (childrenOf fs.dirs dst)) f.name = true) :
    f ∈ ((process_files today att src dst fs).1).files ∧
    ((process_files today att src dst fs).2).map Prod.fst =
      fs.files.filter (fun x => decide (x.dir = src)) := by
  constructor
  · unfold process_files
    exact process_fold_keep today att _ _ (fs, []) f
      (List.Nodup.filter _ hnd) (List.mem_of_mem_filter hmem) (fun _ => hfail)
  · unfold process_files
    rw [process_fold_log]
    simp

theorem c8_per_file_failure_witness :
    (⟨["source"], "Nonexistent Address - Document.pdf"⟩ : FsPath) ∈
      ((process_files "2026-10-12" (fun _ _ => MoveRes.success) ["source"]
        ["dest"]
        ⟨[⟨["source"], "Nonexistent Address - Document.pdf"⟩],
          [["source"], ["dest"],
            ["dest", "1001 - 123 Main St - Office Building"]]⟩).1).files ∧
    ((process_files "2026-10-12" (fun _ _ => MoveRes.success) ["source"]
        ["dest"]
        ⟨[⟨["source"], "Nonexistent Address - Document.pdf"⟩],
          [["source"], ["dest"],
            ["dest", "1001 - 123 Main St - Office Building"]]⟩).2).map Prod.fst =
      (⟨[⟨["source"], "Nonexistent Address - Document.pdf"⟩],
        [["source"], ["dest"],
          ["dest", "1001 - 123 Main St - Office Building"]]⟩ : FS).files.filter
        (fun x => decide (x.dir = ["source"])) :=
  c8_per_file_failure "2026-10-12" (fun _ _ => MoveRes.success) ["source"]
    ["dest"]
    ⟨[⟨["source"], "Nonexistent Address - Document.pdf"⟩],
      [["source"], ["dest"], ["dest", "1001 - 123 Main St - Office Building"]]⟩
    (by decide) ⟨["source"], "Nonexistent Address - Document.pdf"⟩ (by decide)
    (by decide)

theorem sleepWhole_all_true (running : Nat → Bool) (h : ∀ j, running j = true) :
    ∀ (w i : Nat),
      sleepWhole running i w = (List.replicate w TickEvent.sleep1, i + w) := by
  intro w
  induction w with
  | zero => intro i; simp [sleepWhole]
  | succ n ih =>
    intro i
    rw [sleepWhole, h i]
    simp only [if_true, ih (i + 1), List.replicate_succ]
    refine congrArg _ ?_
    omega

theorem sleepWhole_stops (running : Nat → Bool) :
    ∀ (k i w : Nat), k < w → (∀ j < k, running (i + j) = true) →
      running (i + k) = false →
      sleepWhole running i w = (List.replicate k TickEvent.sleep1, i + k + 1) := by
  intro k
  induction k with
  | zero =>
    intro i w hk htrue hfalse
    cases w with
    | zero => omega
    | succ n =>
      simp only [Nat.add_zero] at hfalse
      rw [sleepWhole, hfalse]
      simp
  | succ k ih =>
    intro i w hk htrue hfalse
    cases w with
    | zero => omega
    | succ n =>
      have h0 : running i = true := by
        have := htrue 0 (by omega)
        simpa using this
      have hrec := ih (i + 1) n (by omega)
        (fun j hj => by
          have := htrue (j + 1) (by omega)
          rwa [show i + (j + 1) = i + 1 + j by omega] at this)
        (by rwa [show i + (k + 1) = i + 1 + k by omega] at hfalse)
      rw [sleepWhole, h0]
      simp only [if_true, hrec, List.replicate_succ]
      refine congrArg _ ?_
      omega

/-- Claim C9: after each pass the loop sleeps `max(0, interval − elapsed)`
seconds as `⌊·⌋` one-second waits (plus the fractional remainder), each
preceded by a read of the running flag; a false read stops the sleeping
immediately (at most the one-second wait in flight elapses after the
signal) and the loop body never runs again, so no further pass starts once
the flag is cleared. -/
theorem c9_scheduler (interval : ℚ) (elapsed : Nat → ℚ) (running : Nat → Bool) :
    (∀ (i c fuel : Nat), (∀ j, running j = true) →
      0 < max 0 (interval - elapsed c) →
      run_service_loop interval elapsed running i c (fuel + 1) =
        TickEvent.pass ::
          ((List.replicate (⌊max 0 (interval - elapsed c)⌋).toNat
              TickEvent.sleep1 ++
            (if (⌊max 0 (interval - elapsed c)⌋ : ℚ) < max 0 (interval - elapsed c)
              then [TickEvent.sleepFrac] else [])) ++
          run_service_loop interval elapsed running
            (i + 1 + (⌊max 0 (interval - elapsed c)⌋).toNat + 1) (c + 1) fuel)) ∧
    (∀ (i w k : Nat), k < w → (∀ j < k, running (i + j) = true) →
      running (i + k) = false →
      sleepWhole running i w = (List.replicate k TickEvent.sleep1, i + k + 1)) ∧
    (∀ (i c fuel : Nat), running i = false →
      run_service_loop interval elapsed running i c fuel = []) ∧
    (∀ (i k c fuel : Nat),
      (∀ j j', j ≤ j' → running j = false → running j' = false) →
      running k = false → k ≤ i →
      run_service_loop interval elapsed running i c fuel = []) := by
  have hstop : ∀ (i c fuel : Nat), running i = false →
      run_service_loop interval elapsed running i c fuel = [] := by
    intro i c fuel hfalse
    cases fuel with
    | zero => rfl
    | succ n =>
      rw [run_service_loop, hfalse]
      simp
  refine ⟨?_, fun i w k hk ht hf => sleepWhole_stops running k i w hk ht hf,
    hstop, fun i k c fuel hmono hk hle => hstop i c fuel (hmono k i hle hk)⟩
  intro i c fuel hall hpos
  rw [run_service_loop, hall i]
  simp only [if_true, if_pos hpos, sleepWhole_all_true running hall, hall]
  by_cases hfr : (⌊max 0 (interval - elapsed c)⌋ : ℚ) < max 0 (interval - elapsed c)
  · simp [hfr, List.append_assoc]
  · simp [hfr, List.append_assoc]

theorem c9_scheduler_witness :
    run_service_loop 3 (fun _ => 1 / 2) (fun _ => true) 0 0 1 =
      TickEvent.pass ::
        ((List.replicate (⌊max 0 ((3 : ℚ) - (1 : ℚ) / 2)⌋).toNat
            TickEvent.sleep1 ++
          (if (⌊max 0 ((3 : ℚ) - (1 : ℚ) / 2)⌋ : ℚ) < max 0 ((3 : ℚ) - (1 : ℚ) / 2)
            then [TickEvent.sleepFrac] else [])) ++
        run_service_loop 3 (fun _ => 1 / 2) (fun _ => true)
          (0 + 1 + (⌊max 0 ((3 : ℚ) - (1 : ℚ) / 2)⌋).toNat + 1) 1 0) ∧
    sleepWhole (fun j => decide (j < 2)) 0 5 =
      (List.replicate 2 TickEvent.sleep1, 3) ∧
    run_service_loop 3 (fun _ => 1 / 2) (fun _ => false) 0 0 7 = [] :=
  ⟨(c9_scheduler 3 (fun _ => 1 / 2) (fun _ => true)).1 0 0 0 (fun _ => rfl)
      (by norm_num),
    (c9_scheduler 3 (fun _ => 1 / 2) (fun j => decide (j < 2))).2.1 0 5 2
      (by omega) (fun j hj => by simp; omega) (by simp),
    (c9_scheduler 3 (fun _ => 1 / 2) (fun _ => false)).2.2.1 0 0 7 rfl⟩

end FileMover
